import Mathlib

/-!
Verification development for `scripts/secret_scan.py`, a single-pass secret
scanner: it walks a directory tree, skips ignored path components and large
or unreadable files, matches four fixed token patterns against each file's
lossily UTF-8-decoded contents, and reports findings with exit code 0/1/2.

The embedding models the filesystem interaction explicitly: a `FileEntry`
records what the OS would answer for each path produced by `root.rglob("*")`
(its components relative to the root, whether it is a regular file, the
result of `stat` and of reading its bytes), and a `Filesystem` records
whether the resolved root exists together with the `rglob` enumeration.
Pure functions mirror `iter_candidate_files`, `scan_file` and `main`.
-/

namespace SecretScan

/-- The regex character class `[A-Za-z0-9]` ("ASCII letters and digits only"). -/
def isAsciiAlnum (c : Char) : Bool :=
  decide (65 ≤ c.toNat ∧ c.toNat ≤ 90) || decide (97 ≤ c.toNat ∧ c.toNat ≤ 122) ||
    decide (48 ≤ c.toNat ∧ c.toNat ≤ 57)

/-- Characters matched by Python's `\s` for `str` patterns: ASCII whitespace
`\t \n \v \f \r` and space, the file/group/record/unit separators `\x1c`-`\x1f`,
NEL `\x85`, NBSP `\xa0`, and the Unicode space separators. -/
def isPySpace (c : Char) : Bool :=
  decide (9 ≤ c.toNat ∧ c.toNat ≤ 13) || decide (c.toNat = 32) ||
    decide (28 ≤ c.toNat ∧ c.toNat ≤ 31) || decide (c.toNat = 133) ||
    decide (c.toNat = 160) || decide (c.toNat = 0x1680) ||
    decide (0x2000 ≤ c.toNat ∧ c.toNat ≤ 0x200A) || decide (c.toNat = 0x2028) ||
    decide (c.toNat = 0x2029) || decide (c.toNat = 0x202F) ||
    decide (c.toNat = 0x205F) || decide (c.toNat = 0x3000)

/-- Characters matched by the class `[A-Za-z0-9-_]` of the bearer pattern,
compiled with `re.IGNORECASE`: the dash sits between a complete range and `_`,
so it is literal; CPython's Unicode case folding additionally lets four
letters match the `A-Z`/`a-z` ranges — `İ` (U+0130) and `ı` (U+0131), which
fold with `i`/`I`, `ſ` (U+017F, folds to `s`), and `K` (U+212A, folds to
`k`). -/
def isBearerBody (c : Char) : Bool :=
  isAsciiAlnum c || decide (c.toNat = 45) || decide (c.toNat = 95) ||
    decide (c.toNat = 0x130) || decide (c.toNat = 0x131) ||
    decide (c.toNat = 0x17F) || decide (c.toNat = 0x212A)

/-- ASCII lower-casing, as `re.IGNORECASE` folds the ASCII-only literal
`bearer` (none of `b`,`e`,`a`,`r` has a non-ASCII case-folding variant). -/
def toLowerAscii (c : Char) : Char :=
  if 65 ≤ c.toNat ∧ c.toNat ≤ 90 then Char.ofNat (c.toNat + 32) else c

/-- Does `s` start with the (lower-case) literal `lit`, compared after ASCII
lower-casing each character of `s`? Embeds matching a literal under
`re.IGNORECASE`. -/
def matchCaseless : List Char → List Char → Bool
  | [], _ => true
  | _ :: _, [] => false
  | l :: ls, c :: cs => (toLowerAscii c == l) && matchCaseless ls cs

/-- Anchored match of a regex of the form `LIT[cls]{20,}` at the start of `s`
(greedy, so the repetition takes the maximal run): returns the length of the
match, or `none`. Embeds the `sk-` / `proj-` / `pcsk_` patterns. -/
def litMatch (lit : List Char) (cls : Char → Bool) (s : List Char) : Option Nat :=
  if lit.isPrefixOf s then
    if 20 ≤ ((s.drop lit.length).takeWhile cls).length then
      some (lit.length + ((s.drop lit.length).takeWhile cls).length)
    else none
  else none

/-- The literal of the bearer pattern. -/
def bearerLit : List Char := ['b', 'e', 'a', 'r', 'e', 'r']

/-- Anchored match of `bearer\s+[A-Za-z0-9-_]{20,}` (with `re.IGNORECASE`) at
the start of `s`.  Both repetitions are greedy; since no whitespace character
is in the body class, the regex engine's backtracking never shortens the
whitespace run, so the match is literal + maximal `\s` run (nonempty) +
maximal body run (length at least 20). -/
def bearerMatch (s : List Char) : Option Nat :=
  if matchCaseless bearerLit s then
    if (s.drop 6).takeWhile isPySpace = [] then none
    else
      if 20 ≤ (((s.drop 6).dropWhile isPySpace).takeWhile isBearerBody).length then
        some (6 + ((s.drop 6).takeWhile isPySpace).length +
          (((s.drop 6).dropWhile isPySpace).takeWhile isBearerBody).length)
      else none
  else none

/-- `sk-[A-Za-z0-9]{20,}` anchored at the start of `s`. -/
def skMatch (s : List Char) : Option Nat := litMatch ['s', 'k', '-'] isAsciiAlnum s

/-- `proj-[A-Za-z0-9]{20,}` anchored at the start of `s`. -/
def projMatch (s : List Char) : Option Nat := litMatch ['p', 'r', 'o', 'j', '-'] isAsciiAlnum s

/-- `pcsk_[A-Za-z0-9]{20,}` anchored at the start of `s`. -/
def pcskMatch (s : List Char) : Option Nat := litMatch ['p', 'c', 's', 'k', '_'] isAsciiAlnum s

/-- The fixed pattern table `_PATTERNS`, in source order: label paired with
the anchored matcher embedding its compiled regex. -/
def _PATTERNS : List (String × (List Char → Option Nat)) :=
  [("OpenAI secret", skMatch),
   ("OpenAI project token", projMatch),
   ("Pinecone server key", pcskMatch),
   ("Generic bearer token", bearerMatch)]

/-- One step list of `re.finditer`: try the anchored matcher at each position
left to right; on a match of length `L` emit `(pos, L)` and resume at the
match end (after a zero-width match, resume one character later, as Python
does).  `fuel` only bounds the recursion; `fuel = s.length` always suffices
since every step consumes at least one character. -/
def findIterAux (m : List Char → Option Nat) : Nat → List Char → Nat → List (Nat × Nat)
  | 0, _, _ => []
  | _ + 1, [], _ => []
  | fuel + 1, c :: rest, pos =>
    match m (c :: rest) with
    | none => findIterAux m fuel rest (pos + 1)
    | some L => (pos, L) :: findIterAux m fuel (rest.drop (L - 1)) (pos + max L 1)

/-- All non-overlapping matches of `m` in `s`, as `(position, length)` pairs,
in left-to-right order: the embedding of `regex.finditer(text)`. -/
def findIter (m : List Char → Option Nat) (s : List Char) : List (Nat × Nat) :=
  findIterAux m s.length s 0

/-- Is `b` a UTF-8 continuation byte? -/
def contB (b : Nat) : Bool := decide (128 ≤ b ∧ b ≤ 191)

/-- Allowed second byte of a three-byte sequence with lead `b`: `E0` forbids
overlong encodings, `ED` forbids surrogates. -/
def cont3ok (b b2 : Nat) : Bool :=
  if b = 224 then decide (160 ≤ b2 ∧ b2 ≤ 191)
  else if b = 237 then decide (128 ≤ b2 ∧ b2 ≤ 159)
  else contB b2

/-- Allowed second byte of a four-byte sequence with lead `b`: `F0` forbids
overlong encodings, `F4` caps code points at U+10FFFF. -/
def cont4ok (b b2 : Nat) : Bool :=
  if b = 240 then decide (144 ≤ b2 ∧ b2 ≤ 191)
  else if b = 244 then decide (128 ≤ b2 ∧ b2 ≤ 143)
  else contB b2

/-- Total lossy UTF-8 decoding, embedding CPython's
`bytes.decode("utf-8", errors="ignore")`: well-formed sequences decode to
their code point, and on an ill-formed sequence the maximal valid subpart is
dropped and decoding resumes at the first offending byte, so decoding never
fails.  `fuel` only bounds the recursion; `fuel = bs.length` always suffices
since every step consumes at least one byte. -/
def utf8DecodeIgnoreAux : Nat → List Nat → List Char
  | 0, _ => []
  | _ + 1, [] => []
  | fuel + 1, b :: bs =>
    if b ≤ 127 then Char.ofNat b :: utf8DecodeIgnoreAux fuel bs
    else if 194 ≤ b ∧ b ≤ 223 then
      match bs with
      | [] => []
      | b2 :: bs2 =>
        if contB b2 then Char.ofNat ((b - 192) * 64 + (b2 - 128)) :: utf8DecodeIgnoreAux fuel bs2
        else utf8DecodeIgnoreAux fuel bs
    else if 224 ≤ b ∧ b ≤ 239 then
      match bs with
      | [] => []
      | b2 :: bs2 =>
        if cont3ok b b2 then
          match bs2 with
          | [] => []
          | b3 :: bs3 =>
            if contB b3 then
              Char.ofNat ((b - 224) * 4096 + (b2 - 128) * 64 + (b3 - 128)) ::
                utf8DecodeIgnoreAux fuel bs3
            else utf8DecodeIgnoreAux fuel bs2
        else utf8DecodeIgnoreAux fuel bs
    else if 240 ≤ b ∧ b ≤ 244 then
      match bs with
      | [] => []
      | b2 :: bs2 =>
        if cont4ok b b2 then
          match bs2 with
          | [] => []
          | b3 :: bs3 =>
            if contB b3 then
              match bs3 with
              | [] => []
              | b4 :: bs4 =>
                if contB b4 then
                  Char.ofNat ((b - 240) * 262144 + (b2 - 128) * 4096 + (b3 - 128) * 64 +
                    (b4 - 128)) :: utf8DecodeIgnoreAux fuel bs4
                else utf8DecodeIgnoreAux fuel bs3
            else utf8DecodeIgnoreAux fuel bs2
        else utf8DecodeIgnoreAux fuel bs
    else utf8DecodeIgnoreAux fuel bs

/-- Lossy UTF-8 decoding of a whole byte string, the embedding of
`path.read_text(encoding="utf-8", errors="ignore")`'s decoding step. -/
def utf8DecodeIgnore (bs : List Nat) : List Char :=
  utf8DecodeIgnoreAux bs.length bs

/-- One path yielded by `root.rglob("*")`, together with what the OS answers
for it during this run: `parts` is `path.relative_to(root).parts`, `isFile`
the result of `path.is_file()`, `statSize` is `some size` on a successful
`stat` and `none` when `stat` raises `OSError`, and `readResult` is the raw
bytes on a successful read and `none` when reading raises `OSError`. -/
structure FileEntry where
  pathStr : String
  parts : List String
  isFile : Bool
  statSize : Option Nat
  readResult : Option (List Nat)
deriving DecidableEq

/-- The filesystem state one run of `main` observes: whether the resolved
root exists, its printed form, and the `rglob` enumeration under it. -/
structure Filesystem where
  rootPath : String
  rootExists : Bool
  entries : List FileEntry
deriving DecidableEq

/-- The module constant `_DEFAULT_IGNORES` (a set in the source; only
membership is ever used, so a list models it). -/
def _DEFAULT_IGNORES : List String :=
  [".git", ".github", "DerivedData", "build", "node_modules", "Pods",
   "scripts/__pycache__"]

/-- `iter_candidate_files`: keep the regular files none of whose relative
path components is in the ignore set (defaults plus `--exclude` arguments),
whose `stat` succeeds, and whose size is at most 2 MiB. -/
def iter_candidate_files (entries : List FileEntry) (extraIgnores : List String) : List FileEntry :=
  entries.filter fun path =>
    path.isFile &&
      !(path.parts.any fun part => (_DEFAULT_IGNORES ++ extraIgnores).contains part) &&
      (match path.statSize with
       | none => false
       | some sz => !(decide (2 * 1024 * 1024 < sz)))

/-- The universal-newline translation `Path.read_text` performs after
decoding and before the caller sees the text: `\r\n` and lone `\r` become
`\n`. -/
def translateNewlines : List Char → List Char
  | [] => []
  | '\r' :: '\n' :: rest => '\n' :: translateNewlines rest
  | '\r' :: rest => '\n' :: translateNewlines rest
  | c :: rest => c :: translateNewlines rest

/-- `scan_file`: on a read error return no findings; otherwise decode the
bytes lossily, apply universal-newline translation (both done by
`path.read_text`), and, for each pattern in `_PATTERNS` order, emit one
`(label, snippet)` per `finditer` match, the snippet being the matched
substring. -/
def scan_file (path : FileEntry) : List (String × List Char) :=
  match path.readResult with
  | none => []
  | some bytes =>
    let text := translateNewlines (utf8DecodeIgnore bytes)
    _PATTERNS.flatMap fun lp =>
      (findIter lp.2 text).map fun pr => (lp.1, (text.drop pr.1).take pr.2)

/-- All findings `main` collects: for each candidate file, each `scan_file`
result, tagged with the file it came from, in traversal order. -/
def scanFindings (entries : List FileEntry) (excl : List String) :
    List (FileEntry × String × List Char) :=
  (iter_candidate_files entries excl).flatMap fun e =>
    (scan_file e).map fun ls => (e, ls.1, ls.2)

/-- The line `main` prints for one finding:
`f"  {candidate}: {label} -> {snippet[:60]}"`. -/
def findingLine (f : FileEntry × String × List Char) : String :=
  "  " ++ f.1.pathStr ++ ": " ++ f.2.1 ++ " -> " ++ String.mk (f.2.2.take 60)

/-- Observable outcome of one run: exit status, lines printed to standard
output, lines printed to the error stream (one element per `print` call). -/
structure RunResult where
  exitCode : Nat
  stdout : List String
  stderr : List String
deriving DecidableEq

/-- `main`, applied to the filesystem state it would observe and the list of
`--exclude` arguments: if the resolved root does not exist, print an error
and return 2 before any traversal; otherwise collect all findings, report
them to the error stream and return 1 if there are any, and print the
success line to standard output and return 0 if there are none. -/
def main (fs : Filesystem) (excl : List String) : RunResult :=
  if fs.rootExists = false then
    { exitCode := 2, stdout := [],
      stderr := ["error: path '" ++ fs.rootPath ++ "' does not exist"] }
  else
    if scanFindings fs.entries excl ≠ [] then
      { exitCode := 1, stdout := [],
        stderr := "Detected potential secrets:" ::
          (scanFindings fs.entries excl).map findingLine ++
          ["\nRemove these values or move them to secure storage before proceeding."] }
    else
      { exitCode := 0, stdout := ["✅ No secret patterns detected."], stderr := [] }

/-! ### Helper lemmas -/

/-- Every match position reported by `findIterAux` is at or after the start
position. -/
lemma findIterAux_fst_ge (m : List Char → Option Nat) (fuel : Nat) :
    ∀ (s : List Char) (pos : Nat) (pr : Nat × Nat),
      pr ∈ findIterAux m fuel s pos → pos ≤ pr.1 := by
  induction fuel with
  | zero => intro s pos pr h; simp [findIterAux] at h
  | succ n ih =>
    intro s pos pr h
    match s with
    | [] => simp [findIterAux] at h
    | c :: rest =>
      simp only [findIterAux] at h
      cases hm : m (c :: rest) with
      | none =>
        rw [hm] at h
        have := ih rest (pos + 1) pr h
        omega
      | some L =>
        rw [hm] at h
        rcases List.mem_cons.mp h with h | h
        · simp [h]
        · have := ih (rest.drop (L - 1)) (pos + max L 1) pr h
          omega

/-- The matches reported by `findIterAux` are pairwise non-overlapping and
strictly ordered by position. -/
lemma findIterAux_pairwise (m : List Char → Option Nat) (fuel : Nat) :
    ∀ (s : List Char) (pos : Nat),
      (findIterAux m fuel s pos).Pairwise
        (fun a b => a.1 + a.2 ≤ b.1 ∧ a.1 < b.1) := by
  induction fuel with
  | zero => intro s pos; simp [findIterAux]
  | succ n ih =>
    intro s pos
    match s with
    | [] => simp [findIterAux]
    | c :: rest =>
      simp only [findIterAux]
      cases hm : m (c :: rest) with
      | none =>
        exact ih rest (pos + 1)
      | some L =>
        show List.Pairwise _ ((pos, L) :: findIterAux m n (rest.drop (L - 1)) (pos + max L 1))
        rw [List.pairwise_cons]
        constructor
        · intro b hb
          have hge := findIterAux_fst_ge m n (rest.drop (L - 1)) (pos + max L 1) b hb
          have h1 : L ≤ max L 1 := Nat.le_max_left L 1
          have h2 : 1 ≤ max L 1 := Nat.le_max_right L 1
          exact ⟨by omega, by omega⟩
        · exact ih (rest.drop (L - 1)) (pos + max L 1)

/-- The matches reported by `findIter` are pairwise non-overlapping and
strictly ordered by position. -/
lemma findIter_pairwise (m : List Char → Option Nat) (s : List Char) :
    (findIter m s).Pairwise (fun a b => a.1 + a.2 ≤ b.1 ∧ a.1 < b.1) :=
  findIterAux_pairwise m s.length s 0

/-- The file of every collected finding is a candidate of the traversal. -/
lemma mem_scanFindings {entries : List FileEntry} {excl : List String}
    {x : FileEntry × String × List Char} (hx : x ∈ scanFindings entries excl) :
    x.1 ∈ iter_candidate_files entries excl := by
  simp only [scanFindings, List.mem_flatMap, List.mem_map] at hx
  rcases hx with ⟨e, he, ls, _, rfl⟩
  exact he

/-- `takeWhile`/`dropWhile` on a decomposition whose first block satisfies
the predicate and whose remainder starts with a failing character. -/
lemma takeWhile_append_eq {p : Char → Bool} :
    ∀ (xs rest : List Char), (∀ x ∈ xs, p x = true) →
      (∀ y t, rest = y :: t → p y = false) →
      (xs ++ rest).takeWhile p = xs ∧ (xs ++ rest).dropWhile p = rest := by
  intro xs
  induction xs with
  | nil =>
    intro rest _ hr
    cases rest with
    | nil => simp
    | cons y t =>
      have h := hr y t rfl
      simp [List.takeWhile_cons, List.dropWhile_cons, h]
  | cons x xs ih =>
    intro rest hx hr
    have hpx : p x = true := hx x (List.mem_cons_self x xs)
    have hih := ih rest (fun a ha => hx a (List.mem_cons_of_mem x ha)) hr
    simp [List.takeWhile_cons, List.dropWhile_cons, hpx, hih.1, hih.2]

/-- The head of `dropWhile p l` fails `p`. -/
lemma dropWhile_head_false {p : Char → Bool} :
    ∀ (l : List Char) (y : Char) (t : List Char),
      l.dropWhile p = y :: t → p y = false := by
  intro l
  induction l with
  | nil => intro y t h; simp at h
  | cons c cs ih =>
    intro y t h
    by_cases hc : p c = true
    · rw [List.dropWhile_cons, if_pos hc] at h
      exact ih y t h
    · rw [List.dropWhile_cons, if_neg hc] at h
      obtain ⟨rfl, -⟩ := List.cons.inj h
      exact Bool.eq_false_iff.mpr hc

/-- `matchCaseless lit s` succeeds exactly when `s` begins with a block whose
ASCII lower-casing is `lit`. -/
lemma matchCaseless_iff (lit : List Char) : ∀ (s : List Char),
    matchCaseless lit s = true ↔ ∃ b t, s = b ++ t ∧ b.map toLowerAscii = lit := by
  induction lit with
  | nil =>
    intro s
    constructor
    · intro _
      exact ⟨[], s, rfl, rfl⟩
    · intro _
      rfl
  | cons l ls ih =>
    intro s
    cases s with
    | nil =>
      constructor
      · intro h
        simp [matchCaseless] at h
      · rintro ⟨b, t, hs, hb⟩
        cases b with
        | nil => simp at hb
        | cons _ _ => simp at hs
    | cons c cs =>
      constructor
      · intro h
        simp only [matchCaseless, Bool.and_eq_true, beq_iff_eq] at h
        obtain ⟨hc, hrest⟩ := h
        obtain ⟨b, t, rfl, hb⟩ := (ih cs).mp hrest
        exact ⟨c :: b, t, rfl, by simp [hb, hc]⟩
      · rintro ⟨b, t, hs, hb⟩
        cases b with
        | nil => simp at hb
        | cons b0 bs =>
          simp only [List.map_cons, List.cons.injEq] at hb
          obtain ⟨hb0, hbs⟩ := hb
          simp only [List.cons_append, List.cons.injEq] at hs
          obtain ⟨rfl, rfl⟩ := hs
          simp only [matchCaseless, Bool.and_eq_true, beq_iff_eq]
          exact ⟨hb0, (ih (bs ++ t)).mpr ⟨bs, t, rfl, hbs⟩⟩

/-- A 3 MiB file whose contents start with a valid OpenAI secret token. -/
def oversizedFile : FileEntry :=
  ⟨"/repo/big.bin", ["big.bin"], true, some 3145728,
    some ("sk-AAAAAAAAAAAAAAAAAAAAAAAA".data.map Char.toNat)⟩

/-- A file under `node_modules` whose contents are a valid OpenAI secret
token. -/
def modulesFile : FileEntry :=
  ⟨"/repo/node_modules/pkg/index.js", ["node_modules", "pkg", "index.js"], true,
    some 27, some ("sk-AAAAAAAAAAAAAAAAAAAAAAAA".data.map Char.toNat)⟩

/-- No character of the bearer body class is Python whitespace. -/
lemma isBearerBody_not_space {c : Char} (h : isBearerBody c = true) :
    isPySpace c = false := by
  simp only [isBearerBody, isAsciiAlnum, Bool.or_eq_true, decide_eq_true_eq] at h
  simp only [isPySpace, Bool.or_eq_false_iff, decide_eq_false_iff_not]
  omega

/-! ### Claims -/

/-- C1: `main` exits 2 exactly when the resolved root does not exist; it
exits 0 exactly when the root exists and the collected findings are empty; it
exits 1 exactly when the root exists and at least one finding is collected;
and when the root does not exist the outcome is the error report alone,
independent of the directory tree, so no traversal or matching can influence
it. -/
theorem C1_exit_code_contract (fs : Filesystem) (excl : List String) :
    ((main fs excl).exitCode = 2 ↔ fs.rootExists = false) ∧
    ((main fs excl).exitCode = 0 ↔
      fs.rootExists = true ∧ scanFindings fs.entries excl = []) ∧
    ((main fs excl).exitCode = 1 ↔
      fs.rootExists = true ∧ scanFindings fs.entries excl ≠ []) ∧
    (∀ (p : String) (entries : List FileEntry),
      main ⟨p, false, entries⟩ excl =
        { exitCode := 2, stdout := [],
          stderr := ["error: path '" ++ p ++ "' does not exist"] }) := by
  obtain ⟨p, re, entries⟩ := fs
  cases re <;> by_cases h : scanFindings entries excl = [] <;>
    simp [main, h]

/-- C2: a file whose stat size exceeds 2,097,152 bytes, or whose stat fails
with an OS error, is not a traversal candidate, and no finding is ever
collected for it, regardless of its contents. -/
theorem C2_large_or_unstatable_skipped (entries : List FileEntry)
    (excl : List String) (e : FileEntry)
    (h : e.statSize = none ∨ ∃ sz, e.statSize = some sz ∧ 2 * 1024 * 1024 < sz) :
    e ∉ iter_candidate_files entries excl ∧
      ∀ (label : String) (snippet : List Char),
        (e, label, snippet) ∉ scanFindings entries excl := by
  have hnot : e ∉ iter_candidate_files entries excl := by
    intro hmem
    have hp := (List.mem_filter.mp hmem).2
    simp only [Bool.and_eq_true] at hp
    obtain ⟨-, hsize⟩ := hp
    rcases h with h | ⟨sz, hsz, hgt⟩
    · rw [h] at hsize
      simp at hsize
    · rw [hsz] at hsize
      simp at hsize
      omega
  refine ⟨hnot, ?_⟩
  intro label snippet hmem
  exact hnot (mem_scanFindings hmem)

/-- C2 witness: a 3 MiB file whose contents hold a secret is skipped and
contributes no finding. -/
theorem C2_witness :
    oversizedFile ∉ iter_candidate_files [oversizedFile] [] ∧
      (oversizedFile, "OpenAI secret", "sk-AAAAAAAAAAAAAAAAAAAAAAAA".data) ∉
        scanFindings [oversizedFile] [] := by
  have h := C2_large_or_unstatable_skipped [oversizedFile] [] oversizedFile
    (Or.inr ⟨3145728, rfl, by norm_num⟩)
  exact ⟨h.1, h.2 "OpenAI secret" "sk-AAAAAAAAAAAAAAAAAAAAAAAA".data⟩

/-- C3: a file one of whose relative path components exactly equals a member
of the ignore set (the built-in defaults plus the `--exclude` arguments) is
not a traversal candidate, and no finding is ever collected for it,
regardless of its contents. -/
theorem C3_ignored_component_skipped (entries : List FileEntry)
    (excl : List String) (e : FileEntry)
    (h : ∃ part ∈ e.parts, part ∈ _DEFAULT_IGNORES ∨ part ∈ excl) :
    e ∉ iter_candidate_files entries excl ∧
      ∀ (label : String) (snippet : List Char),
        (e, label, snippet) ∉ scanFindings entries excl := by
  have hnot : e ∉ iter_candidate_files entries excl := by
    intro hmem
    have hp := (List.mem_filter.mp hmem).2
    simp only [Bool.and_eq_true] at hp
    obtain ⟨⟨-, hany⟩, -⟩ := hp
    obtain ⟨part, hin, hset⟩ := h
    simp only [Bool.not_eq_true', List.any_eq_false] at hany
    have hc := hany part hin
    simp only [List.contains, List.elem_eq_mem, decide_eq_false_iff_not,
      List.mem_append] at hc
    exact hc (by simp only [decide_eq_true_eq]; exact hset)
  refine ⟨hnot, ?_⟩
  intro label snippet hmem
  exact hnot (mem_scanFindings hmem)

/-- C3 witness: a secret-bearing file under `node_modules` is skipped and
contributes no finding. -/
theorem C3_witness :
    modulesFile ∉ iter_candidate_files [modulesFile] [] ∧
      (modulesFile, "OpenAI secret", "sk-AAAAAAAAAAAAAAAAAAAAAAAA".data) ∉
        scanFindings [modulesFile] [] := by
  have h := C3_ignored_component_skipped [modulesFile] [] modulesFile
    ⟨"node_modules", by simp [modulesFile], Or.inl (by simp [_DEFAULT_IGNORES])⟩
  exact ⟨h.1, h.2 "OpenAI secret" "sk-AAAAAAAAAAAAAAAAAAAAAAAA".data⟩

/-- A file whose read raises an OS error. -/
def unreadableFile : FileEntry :=
  ⟨"/repo/locked.txt", ["locked.txt"], true, some 10, none⟩

/-- C6: a file whose open or read fails with an I/O error contributes the
empty finding list (a silent skip, not a reported error), and the lossy
decoder drops an undecodable byte character-by-character and continues, so
an undecodable file never aborts the scan. -/
theorem C6_read_error_and_lossy_decode :
    (∀ e : FileEntry, e.readResult = none → scan_file e = []) ∧
    (∀ (b : Nat) (bs : List Nat), (128 ≤ b ∧ b ≤ 193) ∨ 245 ≤ b →
      utf8DecodeIgnore (b :: bs) = utf8DecodeIgnore bs) := by
  constructor
  · intro e he
    simp [scan_file, he]
  · intro b bs h
    simp only [utf8DecodeIgnore, List.length_cons]
    simp only [utf8DecodeIgnoreAux]
    rw [if_neg (by omega), if_neg (by omega), if_neg (by omega), if_neg (by omega)]

/-- C6 witness: an unreadable file yields no findings, and a stray `0xFF`
byte is dropped by the decoder. -/
theorem C6_witness :
    scan_file unreadableFile = [] ∧
      utf8DecodeIgnore (255 :: [65]) = utf8DecodeIgnore [65] :=
  ⟨C6_read_error_and_lossy_decode.1 unreadableFile rfl,
    C6_read_error_and_lossy_decode.2 255 [65] (by omega)⟩

/-- A file whose whole content is `sk-` followed by 24 capital `A`s. -/
def skFile : FileEntry :=
  ⟨"/repo/config.txt", ["config.txt"], true, some 27,
    some ("sk-AAAAAAAAAAAAAAAAAAAAAAAA".data.map Char.toNat)⟩

/-- C7: scanning a file whose entire content is `sk-` followed by exactly 24
ASCII alphanumerics yields exactly one finding, labeled `OpenAI secret`,
whose snippet is the full matched string, which the 60-character display
truncation leaves unchanged. -/
theorem C7_sk_scenario :
    scan_file skFile = [("OpenAI secret", "sk-AAAAAAAAAAAAAAAAAAAAAAAA".data)] ∧
      "sk-AAAAAAAAAAAAAAAAAAAAAAAA".data.length ≤ 60 ∧
      "sk-AAAAAAAAAAAAAAAAAAAAAAAA".data.take 60 =
        "sk-AAAAAAAAAAAAAAAAAAAAAAAA".data :=
  ⟨by decide, by decide, by decide⟩

/-- C9: the scan is deterministic: two runs over filesystem states that
agree on root path, root existence and the enumerated tree, with equal
exclude lists, collect the same findings and produce the same exit code and
printed output. -/
theorem C9_deterministic (fs1 fs2 : Filesystem) (excl1 excl2 : List String)
    (hp : fs1.rootPath = fs2.rootPath) (he : fs1.rootExists = fs2.rootExists)
    (hn : fs1.entries = fs2.entries) (hx : excl1 = excl2) :
    main fs1 excl1 = main fs2 excl2 ∧
      scanFindings fs1.entries excl1 = scanFindings fs2.entries excl2 := by
  obtain ⟨p1, r1, n1⟩ := fs1
  obtain ⟨p2, r2, n2⟩ := fs2
  simp only at hp he hn
  subst hp
  subst he
  subst hn
  subst hx
  exact ⟨rfl, rfl⟩

/-- C9 witness: repeating a concrete run reproduces its findings and output. -/
theorem C9_witness :
    main ⟨"/repo", true, [skFile]⟩ [] = main ⟨"/repo", true, [skFile]⟩ [] ∧
      scanFindings [skFile] [] = scanFindings [skFile] [] :=
  C9_deterministic ⟨"/repo", true, [skFile]⟩ ⟨"/repo", true, [skFile]⟩ [] []
    rfl rfl rfl rfl

/-- A Python bytecode cache file under `scripts/__pycache__`. -/
def pycacheFile : FileEntry :=
  ⟨"/repo/scripts/__pycache__/secret_scan.cpython-311.pyc",
    ["scripts", "__pycache__", "secret_scan.cpython-311.pyc"], true, some 100,
    some []⟩

/-- C10: the default ignore entry `scripts/__pycache__` contains a path
separator, so it can never equal a single (separator-free) path component;
consequently a regular, small-enough file under a `scripts/__pycache__`
directory is still a traversal candidate whenever neither `scripts` nor
`__pycache__` is excluded separately and no other component hits the ignore
set. -/
theorem C10_dead_ignore_entry :
    (∀ p : String, p.data.contains '/' = false → p ≠ "scripts/__pycache__") ∧
    (∀ (entries : List FileEntry) (excl : List String) (e : FileEntry)
      (rest : List String) (sz : Nat),
      e ∈ entries → e.isFile = true → e.statSize = some sz →
      sz ≤ 2 * 1024 * 1024 →
      e.parts = "scripts" :: "__pycache__" :: rest →
      "scripts" ∉ excl → "__pycache__" ∉ excl →
      (∀ part ∈ rest, part ∉ _DEFAULT_IGNORES ∧ part ∉ excl) →
      e ∈ iter_candidate_files entries excl) := by
  constructor
  · intro p hp heq
    rw [heq] at hp
    exact absurd hp (by decide)
  · intro entries excl e rest sz hmem hfile hsz hle hparts hs hpy hrest
    refine List.mem_filter.mpr ⟨hmem, ?_⟩
    simp only [Bool.and_eq_true]
    refine ⟨⟨hfile, ?_⟩, ?_⟩
    · simp only [Bool.not_eq_true', List.any_eq_false]
      intro part hpart
      rw [hparts] at hpart
      simp only [List.contains, List.elem_eq_mem, decide_eq_true_eq]
      intro hmem'
      rcases List.mem_append.mp hmem' with hd | hx
      · rcases List.mem_cons.mp hpart with rfl | hpart'
        · exact absurd hd (by decide)
        · rcases List.mem_cons.mp hpart' with rfl | hpart''
          · exact absurd hd (by decide)
          · exact (hrest part hpart'').1 hd
      · rcases List.mem_cons.mp hpart with rfl | hpart'
        · exact hs hx
        · rcases List.mem_cons.mp hpart' with rfl | hpart''
          · exact hpy hx
          · exact (hrest part hpart'').2 hx
    · rw [hsz]
      simp only [Bool.not_eq_true', decide_eq_false_iff_not]
      omega

/-- C10 witness: a concrete `.pyc` file under `scripts/__pycache__` is still
a candidate, and a separator-free component differs from the dead entry. -/
theorem C10_witness :
    pycacheFile ∈ iter_candidate_files [pycacheFile] [] ∧
      ("__pycache__" : String) ≠ "scripts/__pycache__" := by
  constructor
  · exact C10_dead_ignore_entry.2 [pycacheFile] [] pycacheFile
      ["secret_scan.cpython-311.pyc"] 100 (by simp) rfl rfl (by omega) rfl
      (by simp) (by simp) (by decide)
  · exact C10_dead_ignore_entry.1 "__pycache__" (by decide)

/-- C5: for a readable file, `scan_file` emits one finding per
non-overlapping match of each pattern, grouped in the fixed pattern-list
order (OpenAI secret, OpenAI project token, Pinecone server key, Generic
bearer token), each group internally in strictly increasing,
non-overlapping match-position order, with the snippet being the matched
substring — so findings are grouped by pattern, never interleaved by text
position. -/
theorem C5_findings_grouped_by_pattern (e : FileEntry) (bytes : List Nat)
    (h : e.readResult = some bytes) :
    scan_file e =
      ((findIter skMatch (translateNewlines (utf8DecodeIgnore bytes))).map fun pr =>
        ("OpenAI secret",
          ((translateNewlines (utf8DecodeIgnore bytes)).drop pr.1).take pr.2)) ++
      ((findIter projMatch (translateNewlines (utf8DecodeIgnore bytes))).map fun pr =>
        ("OpenAI project token",
          ((translateNewlines (utf8DecodeIgnore bytes)).drop pr.1).take pr.2)) ++
      ((findIter pcskMatch (translateNewlines (utf8DecodeIgnore bytes))).map fun pr =>
        ("Pinecone server key",
          ((translateNewlines (utf8DecodeIgnore bytes)).drop pr.1).take pr.2)) ++
      ((findIter bearerMatch (translateNewlines (utf8DecodeIgnore bytes))).map fun pr =>
        ("Generic bearer token",
          ((translateNewlines (utf8DecodeIgnore bytes)).drop pr.1).take pr.2)) ∧
    (findIter skMatch (translateNewlines (utf8DecodeIgnore bytes))).Pairwise
      (fun a b => a.1 + a.2 ≤ b.1 ∧ a.1 < b.1) ∧
    (findIter projMatch (translateNewlines (utf8DecodeIgnore bytes))).Pairwise
      (fun a b => a.1 + a.2 ≤ b.1 ∧ a.1 < b.1) ∧
    (findIter pcskMatch (translateNewlines (utf8DecodeIgnore bytes))).Pairwise
      (fun a b => a.1 + a.2 ≤ b.1 ∧ a.1 < b.1) ∧
    (findIter bearerMatch (translateNewlines (utf8DecodeIgnore bytes))).Pairwise
      (fun a b => a.1 + a.2 ≤ b.1 ∧ a.1 < b.1) := by
  refine ⟨?_, findIter_pairwise _ _, findIter_pairwise _ _,
    findIter_pairwise _ _, findIter_pairwise _ _⟩
  simp [scan_file, h, _PATTERNS, List.append_assoc]

/-- C5 witness: the bearer-group matches of a concrete readable file are
non-overlapping and position-ordered. -/
theorem C5_witness :
    (findIter bearerMatch
      (translateNewlines
        (utf8DecodeIgnore ("sk-AAAAAAAAAAAAAAAAAAAAAAAA".data.map Char.toNat)))).Pairwise
      (fun a b => a.1 + a.2 ≤ b.1 ∧ a.1 < b.1) :=
  (C5_findings_grouped_by_pattern skFile
    ("sk-AAAAAAAAAAAAAAAAAAAAAAAA".data.map Char.toNat) rfl).2.2.2.2

/-- C8 counterexample: in a concrete run with one finding, the finding line
printed to the error stream is not `<path>: <label> -> <snippet-first-60>`
as the claim formats it — the program indents it with two leading spaces. -/
theorem C8_counterexample :
    (main ⟨"/repo", true, [skFile]⟩ []).stderr =
      ["Detected potential secrets:",
       "  /repo/config.txt: OpenAI secret -> sk-AAAAAAAAAAAAAAAAAAAAAAAA",
       "\nRemove these values or move them to secure storage before proceeding."] ∧
    (main ⟨"/repo", true, [skFile]⟩ []).stderr[1]? ≠
      some "/repo/config.txt: OpenAI secret -> sk-AAAAAAAAAAAAAAAAAAAAAAAA" := by
  constructor <;> decide

/-- C8 (amended): when the root exists and findings are non-empty, `main`
prints to the error stream a header line, one line per finding formatted as
two spaces followed by `<path>: <label> -> <snippet-first-60-chars>` (the
snippet truncated to its first 60 characters), and a closing remediation
sentence, printing nothing to standard output; when findings are empty,
exactly the success line is printed, to standard output only. -/
theorem C8_output_format (p : String) (entries : List FileEntry)
    (excl : List String) :
    (scanFindings entries excl = [] →
      main ⟨p, true, entries⟩ excl =
        { exitCode := 0, stdout := ["✅ No secret patterns detected."],
          stderr := [] }) ∧
    (scanFindings entries excl ≠ [] →
      (main ⟨p, true, entries⟩ excl).stdout = [] ∧
      (main ⟨p, true, entries⟩ excl).stderr =
        "Detected potential secrets:" ::
          (scanFindings entries excl).map (fun f =>
            "  " ++ f.1.pathStr ++ ": " ++ f.2.1 ++ " -> " ++
              String.mk (f.2.2.take 60)) ++
          ["\nRemove these values or move them to secure storage before proceeding."]) := by
  constructor
  · intro h
    simp [main, h]
  · intro h
    constructor <;> simp [main, h, findingLine]

/-- C8 witness: a clean run prints exactly the success line, to standard
output only. -/
theorem C8_witness :
    main ⟨"/repo", true, []⟩ [] =
      { exitCode := 0, stdout := ["✅ No secret patterns detected."],
        stderr := [] } :=
  (C8_output_format "/repo" [] []).1 rfl

/-- Modelled from the spec: the shape the claim says the bearer pattern
matches — the literal `bearer` in any letter case, one or more space
characters, then 20 or more characters drawn from `[A-Za-z0-9-_]`.  Stated
for comparison with the code's matcher `bearerMatch`. -/
def bearerClaimShape (s : List Char) : Prop :=
  ∃ b ws body, s = b ++ ws ++ body ∧ b.map toLowerAscii = bearerLit ∧
    ws ≠ [] ∧ (∀ c ∈ ws, c = ' ') ∧ 20 ≤ body.length ∧
    ∀ c ∈ body,
      (isAsciiAlnum c || decide (c.toNat = 45) || decide (c.toNat = 95)) = true

/-- A file whose content is `bearer`, a tab, and 20 capital `A`s. -/
def tabBearerFile : FileEntry :=
  ⟨"/repo/tab.txt", ["tab.txt"], true, some 27,
    some ("bearer\tAAAAAAAAAAAAAAAAAAAA".data.map Char.toNat)⟩

/-- The UTF-8 bytes of `bearer `, a space, then 20 copies of `ı` (U+0131,
encoded `C4 B1`). -/
def dotlessBytes : List Nat :=
  "bearer ".data.map Char.toNat ++ (List.replicate 20 [196, 177]).flatten

/-- A file whose content is `bearer `, then 20 dotless `ı`s. -/
def dotlessFile : FileEntry :=
  ⟨"/repo/dotless.txt", ["dotless.txt"], true, some 47, some dotlessBytes⟩

/-- A file holding the spec's mixed-case bearer scenario string. -/
def bearerScenarioFile : FileEntry :=
  ⟨"/repo/auth.txt", ["auth.txt"], true, some 31,
    some ("Bearer abcDEF1234567890ZZZZ0000".data.map Char.toNat)⟩

/-- C4 counterexample: the claim's shape misses matches in two ways.  The
pattern uses `\s+`, not literal spaces: a file containing `bearer`, a tab,
and 20 token characters yields a `Generic bearer token` finding whose
matched substring contains no space character.  And the class
`[A-Za-z0-9-_]` is compiled under `re.IGNORECASE`, whose case folding admits
`ı` (U+0131): a file containing `bearer ` and 20 dotless `ı`s also yields a
finding, though its body characters are outside the claim's ASCII set.
Neither matched substring is of the claimed shape. -/
theorem C4_counterexample :
    (scan_file tabBearerFile =
      [("Generic bearer token", "bearer\tAAAAAAAAAAAAAAAAAAAA".data)] ∧
    ¬ bearerClaimShape "bearer\tAAAAAAAAAAAAAAAAAAAA".data) ∧
    (scan_file dotlessFile =
      [("Generic bearer token", "bearer ".data ++ List.replicate 20 'ı')] ∧
    ¬ bearerClaimShape ("bearer ".data ++ List.replicate 20 'ı')) := by
  refine ⟨⟨by decide, ?_⟩, by decide, ?_⟩
  · rintro ⟨b, ws, body, hs, hb, hwsne, hsp, -, -⟩
    have hblen : b.length = 6 := by
      have := congrArg List.length hb
      simpa using this
    obtain ⟨w, ws', rfl⟩ : ∃ w ws', ws = w :: ws' := by
      cases ws with
      | nil => exact absurd rfl hwsne
      | cons w ws' => exact ⟨w, ws', rfl⟩
    have hw : w = ' ' := hsp w (List.mem_cons_self w ws')
    have h6 : ("bearer\tAAAAAAAAAAAAAAAAAAAA".data)[6]? = some w := by
      rw [hs, List.getElem?_append_left (by simp [hblen]),
        List.getElem?_append_right (by omega), hblen]
      simp
    rw [hw] at h6
    exact absurd h6 (by decide)
  · rintro ⟨b, ws, body, hs, hb, hwsne, -, hbl, hcls⟩
    have hblen : b.length = 6 := by
      have := congrArg List.length hb
      simpa using this
    have hclen : ("bearer ".data ++ List.replicate 20 'ı').length = 27 := by
      decide
    have hlen := congrArg List.length hs
    rw [hclen] at hlen
    simp only [List.length_append, hblen] at hlen
    have hwpos : 0 < ws.length := List.length_pos.mpr hwsne
    have hbw : (b ++ ws).length = 7 := by
      simp only [List.length_append, hblen]
      omega
    have h26 : ("bearer ".data ++ List.replicate 20 'ı')[26]? = body[19]? := by
      rw [hs, List.getElem?_append_right (by omega), hbw]
    have hb19 : body[19]? = some 'ı' := by
      rw [← h26]
      decide
    have := hcls 'ı' (List.getElem?_mem hb19)
    exact absurd this (by decide)

/-- C4 (amended): the bearer pattern matches exactly the substrings made of
the literal `bearer` in any letter case, one or more Python whitespace
characters (the regex is `\s+`, so tabs, newlines and Unicode spaces count,
not only spaces), then a maximal run of 20 or more characters of the class
`[A-Za-z0-9-_]` as compiled under `re.IGNORECASE` (whose case folding also
admits `İ`, `ı`, `ſ` and `K`); and the spec's mixed-case scenario file
yields exactly one `Generic bearer token` finding. -/
theorem C4_bearer_whitespace :
    (∀ (s : List Char) (L : Nat), bearerMatch s = some L →
      ∃ b ws body rest, s = b ++ (ws ++ (body ++ rest)) ∧
        s.take L = b ++ (ws ++ body) ∧
        b.map toLowerAscii = bearerLit ∧ ws ≠ [] ∧
        (∀ c ∈ ws, isPySpace c = true) ∧ 20 ≤ body.length ∧
        (∀ c ∈ body, isBearerBody c = true) ∧
        L = 6 + ws.length + body.length) ∧
    (∀ (b ws body : List Char),
      b.map toLowerAscii = bearerLit → ws ≠ [] →
      (∀ c ∈ ws, isPySpace c = true) → 20 ≤ body.length →
      (∀ c ∈ body, isBearerBody c = true) →
      bearerMatch (b ++ (ws ++ body)) = some (6 + ws.length + body.length)) ∧
    scan_file bearerScenarioFile =
      [("Generic bearer token", "Bearer abcDEF1234567890ZZZZ0000".data)] := by
  refine ⟨?_, ?_, by decide⟩
  · intro s L h
    by_cases h1 : matchCaseless bearerLit s
    · rw [bearerMatch, if_pos h1] at h
      by_cases h2 : (s.drop 6).takeWhile isPySpace = []
      · rw [if_pos h2] at h
        simp at h
      · rw [if_neg h2] at h
        by_cases h3 :
            20 ≤ (((s.drop 6).dropWhile isPySpace).takeWhile isBearerBody).length
        · rw [if_pos h3] at h
          have hL := (Option.some.inj h).symm
          obtain ⟨b, t, hs, hb⟩ := (matchCaseless_iff bearerLit s).mp h1
          have hblen : b.length = 6 := by
            have := congrArg List.length hb
            simpa using this
          have hdrop : s.drop 6 = t := by
            rw [hs, List.drop_left' hblen]
          set ws := (s.drop 6).takeWhile isPySpace with hws
          set body := ((s.drop 6).dropWhile isPySpace).takeWhile isBearerBody
            with hbody
          set rest := ((s.drop 6).dropWhile isPySpace).dropWhile isBearerBody
            with hrest
          have hdecomp : s = b ++ (ws ++ (body ++ rest)) := by
            rw [hws, hbody, hrest, List.takeWhile_append_dropWhile,
              List.takeWhile_append_dropWhile, hdrop]
            exact hs
          refine ⟨b, ws, body, rest, hdecomp, ?_, hb, h2, ?_, h3, ?_, hL⟩
          · have hsplit : s = (b ++ (ws ++ body)) ++ rest := by
              rw [hdecomp]
              simp [List.append_assoc]
            rw [hsplit, hL]
            refine List.take_left' ?_
            simp only [List.length_append, hblen]
            omega
          · intro c hc
            rw [hws] at hc
            exact List.mem_takeWhile_imp hc
          · intro c hc
            rw [hbody] at hc
            exact List.mem_takeWhile_imp hc
        · rw [if_neg h3] at h
          simp at h
    · rw [bearerMatch, if_neg h1] at h
      simp at h
  · intro b ws body hb hwsne hws hbl hbody
    have hblen : b.length = 6 := by
      have := congrArg List.length hb
      simpa using this
    have hmc : matchCaseless bearerLit (b ++ (ws ++ body)) = true :=
      (matchCaseless_iff bearerLit (b ++ (ws ++ body))).mpr ⟨b, ws ++ body, rfl, hb⟩
    have hdrop : (b ++ (ws ++ body)).drop 6 = ws ++ body :=
      List.drop_left' hblen
    have hbodyhead : ∀ y t, body = y :: t → isPySpace y = false := by
      intro y t hyt
      exact isBearerBody_not_space (hbody y (hyt ▸ List.mem_cons_self y t))
    have hTW := takeWhile_append_eq ws body hws hbodyhead
    have hbody_tw : body.takeWhile isBearerBody = body := by
      have := takeWhile_append_eq body [] hbody (by intro y t ht; simp at ht)
      simpa using this.1
    rw [bearerMatch, if_pos hmc, hdrop, hTW.1, hTW.2, if_neg hwsne, hbody_tw,
      if_pos hbl]

/-- C4 witness: a concrete decomposition of the amended shape is matched in
full. -/
theorem C4_witness :
    bearerMatch ("bearer".data ++ ([' '] ++ "aaaaaaaaaaaaaaaaaaaa".data)) =
      some 27 :=
  C4_bearer_whitespace.2.1 "bearer".data [' '] "aaaaaaaaaaaaaaaaaaaa".data
    (by decide) (by decide) (by decide) (by decide) (by decide)

end SecretScan
